import Mathlib

/-!
Shallow embedding of `src/backend/fuzzy_aggregator.py` (the fuzzy
evidence-fusion engine of splint-advisor) and proofs about it.

Modelling conventions:
- Python `float` is modelled by `ℚ` (all arithmetic performed by the engine
  is rational; none of the verified statements depends on binary rounding).
- Python `int` is modelled by `ℤ` (counts come from `len`, but the functions
  accept any int, which matters for the negative-count claims).
- Python `str` is modelled by `String`; `str.lower`/`str.strip` are modelled
  by ASCII versions (`lowerStr`, `trimStr`) over the character list, which
  agree with Python on all ASCII data (the engine's own literals are ASCII).
- Python `dict` records are modelled by structures holding exactly the keys
  the engine reads or writes; optional/absent keys are `Option` fields.
- `list.sort(key=...)` (a stable sort by a total preorder on keys) is
  modelled by `List.insertionSort` with the corresponding total preorder,
  which is also stable, hence produces the identical list.
- Python `round(x, 2)` / `round(x)` are modelled with `round` on `ℚ`
  (`roundQ2`); they differ from Python only at exact ties (Python rounds
  half to even), which no verified statement touches.
-/

/-- Python truthiness-based `a or b` for strings (the empty string is falsy). -/
def pyOr (a b : String) : String := if a = "" then b else a

/-- ASCII `str.lower` on a character. -/
def lowerChar (c : Char) : Char :=
  if 65 ≤ c.toNat ∧ c.toNat ≤ 90 then Char.ofNat (c.toNat + 32) else c

/-- ASCII `str.lower`. -/
def lowerStr (s : String) : String := ⟨s.data.map lowerChar⟩

/-- ASCII whitespace, as stripped by `str.strip`. -/
def isSpaceChar (c : Char) : Bool := c = ' ' || c = '\t' || c = '\n' || c = '\r'

/-- ASCII `str.strip`: drop leading and trailing whitespace. -/
def trimStr (s : String) : String :=
  ⟨((s.data.dropWhile isSpaceChar).reverse.dropWhile isSpaceChar).reverse⟩

/-- Whether `need` is an initial segment of `hay` (helper for substring). -/
def startsWithCL : List Char → List Char → Bool
  | _, [] => true
  | [], _ :: _ => false
  | a :: as, b :: bs => a == b && startsWithCL as bs

/-- Whether `need` occurs as a contiguous substring of the second list. -/
def hasSubCL (need : List Char) : List Char → Bool
  | [] => startsWithCL [] need
  | c :: rest => startsWithCL (c :: rest) need || hasSubCL need rest

/-- Python `need in hay` on strings (contiguous substring test). -/
def strContainsSub (hay need : String) : Bool := hasSubCL need.data hay.data

/-- Python `<` on strings: lexicographic comparison by code point. -/
def charListLt : List Char → List Char → Bool
  | _, [] => false
  | [], _ :: _ => true
  | a :: as, b :: bs =>
    if a.toNat < b.toNat then true
    else if b.toNat < a.toNat then false
    else charListLt as bs

/-- Python `a <= b` on strings, as used by tuple sort keys. -/
def nameLe (a b : String) : Prop := charListLt b.data a.data = false

/-- Python `round(q, 2)` (ties differ: Python rounds half to even). -/
def roundQ2 (q : ℚ) : ℚ := (round (100 * q) : ℚ) / 100

/-- Python builtin `min` on two floats (`b` wins only when strictly smaller). -/
def pyMin (a b : ℚ) : ℚ := if b < a then b else a

/-- Python builtin `max` on two floats (`b` wins only when strictly larger). -/
def pyMax (a b : ℚ) : ℚ := if a < b then b else a

/-- `CONFIDENCE_TO_NUMERIC` table from the source. -/
def CONFIDENCE_TO_NUMERIC : List (String × ℚ) :=
  [("high", 0.85), ("medium", 0.5), ("low", 0.2)]

/-- `NUMERIC_TO_CONFIDENCE` table from the source. -/
def NUMERIC_TO_CONFIDENCE : List (ℚ × String) :=
  [(0.7, "high"), (0.35, "medium"), (0, "low")]

/-- `confidence_to_numeric`: dictionary lookup with default `0.5` on
`(c or "medium").lower()`. -/
def confidence_to_numeric (c : String) : ℚ :=
  (CONFIDENCE_TO_NUMERIC.lookup (lowerStr (pyOr c "medium"))).getD 0.5

/-- `defuzzify_confidence`: first `(threshold, label)` with `x >= threshold`,
falling through to `"low"`. -/
def defuzzify_confidence (x : ℚ) : String :=
  ((NUMERIC_TO_CONFIDENCE.find? fun p => decide (p.1 ≤ x)).map Prod.snd).getD "low"

/-- `membership_triangular`: peak at `b`, zero outside `[a, c]`. -/
def membership_triangular (x a b c : ℚ) : ℚ :=
  if x ≤ a ∨ c ≤ x then 0
  else if x ≤ b then (if a = b then 1 else (x - a) / (b - a))
  else (if b = c then 1 else (c - x) / (c - b))

/-- `nih_evidence_strength`: weighted sum of the article triangular
membership (peak at 3) and the term/splint count ramp. -/
def nih_evidence_strength (n_articles n_terms n_splints : ℤ) : ℚ :=
  let article_mu := membership_triangular (n_articles : ℚ) 0 3 6
  let term_mu := pyMin 1 (((n_terms : ℚ) + (n_splints : ℚ)) / 6)
  0.6 * article_mu + 0.4 * term_mu

/-- `fuse_confidence`: weighted fusion of clinical confidence and NIH
evidence strength, clamped to `[0, 1]`, then defuzzified. -/
def fuse_confidence (clinical_confidence : String)
    (nih_articles_count nih_terms_count nih_splints_count : ℤ)
    (w_clinical : ℚ) : String :=
  let c_num := confidence_to_numeric clinical_confidence
  let nih_str := nih_evidence_strength nih_articles_count nih_terms_count nih_splints_count
  let fused := w_clinical * c_num + (1 - w_clinical) * nih_str
  let clamped := pyMax 0 (pyMin 1 fused)
  defuzzify_confidence clamped

/-- An article record from the evidence agent; the engine only reads the
optional `title` key (`a.get("title")`). -/
structure Article where
  title : Option String
deriving DecidableEq

/-- A ranked-option entry `{splint_name, source, membership}` produced by
`fuse_splints`. -/
structure AltScore where
  splint_name : String
  source : String
  membership : ℚ
deriving DecidableEq

/-- A term entry `{term, source, weight}` produced by `fuse_diagnosis_terms`. -/
structure TermRec where
  term : String
  source : String
  weight : ℚ
deriving DecidableEq

/-- A recommendation entry `{recommendation, source, priority}` produced by
`fuse_recommendations`. -/
structure RecRec where
  recommendation : String
  source : String
  priority : ℚ
deriving DecidableEq

/-- An entry of the primary splint's `alternatives` list: either a bare
string or a dict; for a dict the engine reads `splint_name` and `name` and
falls back to `str(alt)` (modelled by the `repr` field). -/
inductive AltItem where
  | strA (s : String)
  | dictA (splint_name : Option String) (name : Option String) (repr : String)
deriving DecidableEq

/-- `alt.get("splint_name") or alt.get("name") or str(alt)` for a dict
alternative, `str(alt)` for a bare string. -/
def altName : AltItem → String
  | .strA s => s
  | .dictA sn n r => pyOr (pyOr (sn.getD "") (n.getD "")) r

/-- The primary splint dict; the engine reads `splint_name` and
`alternatives` (both possibly absent). `rationale` is carried because the
string-stub branch of `aggregate_two_agents` writes it. -/
structure Splint where
  splint_name : Option String
  rationale : Option String
  alternatives : Option (List AltItem)
deriving DecidableEq

/-- `splint_membership_from_nih`: how many article titles mention this
splint (case-insensitive substring), via triangular membership (0, 1, 4). -/
def splint_membership_from_nih (splint_name : String) (nih_articles : List Article) : ℚ :=
  if nih_articles.isEmpty then 0
  else
    let key := lowerStr splint_name
    let count := nih_articles.countP fun a => strContainsSub (lowerStr (a.title.getD "")) key
    membership_triangular (count : ℚ) 0 1 4

/-- First loop of `fuse_splints`: walk the clinical alternatives, skipping
names already seen (lowercased), adding `source="clinical"`,
`membership=1.0` entries and recording seen names. Returns the final seen
set and the entries in insertion order. -/
def addClinicalAlts : List AltItem → List String → List String × List AltScore
  | [], seen => (seen, [])
  | alt :: rest, seen =>
    let name := altName alt
    if lowerStr name ∈ seen then addClinicalAlts rest seen
    else
      ((addClinicalAlts rest (lowerStr name :: seen)).1,
        ⟨name, "clinical", 1⟩ :: (addClinicalAlts rest (lowerStr name :: seen)).2)

/-- Second loop of `fuse_splints`: walk the NIH candidate names, skipping
seen ones, adding `source="nih"` entries with rounded literature
membership. -/
def addNihSplints : List String → List String → List Article → List AltScore
  | [], _, _ => []
  | s :: rest, seen, arts =>
    if lowerStr s ∈ seen then addNihSplints rest seen arts
    else ⟨s, "nih", roundQ2 (splint_membership_from_nih s arts)⟩ ::
      addNihSplints rest (lowerStr s :: seen) arts

/-- The sort key relation of `fuse_splints`/`fuse_recommendations`:
Python's ascending order on the tuple `(-score, text)`. -/
def keyLe (m1 : ℚ) (n1 : String) (m2 : ℚ) (n2 : String) : Prop :=
  m2 < m1 ∨ (m1 = m2 ∧ nameLe n1 n2)

/-- Sort relation for ranked options: `key=lambda x: (-membership, name)`. -/
def altLe (x y : AltScore) : Prop :=
  keyLe x.membership x.splint_name y.membership y.splint_name

/-- Sort relation for merged recommendations:
`key=lambda x: (-priority, text)`. -/
def recLe (x y : RecRec) : Prop :=
  keyLe x.priority x.recommendation y.priority y.recommendation

instance : DecidableRel altLe := fun x y => by
  unfold altLe keyLe nameLe; infer_instance

instance : DecidableRel recLe := fun x y => by
  unfold recLe keyLe nameLe; infer_instance

/-- The fused primary splint: the primary dict plus the added
`alternatives_with_scores` key. -/
structure FusedPrimary where
  base : Splint
  alternatives_with_scores : List AltScore
deriving DecidableEq

/-- `fuse_splints`: dedup clinical alternatives then NIH candidates by
lowercased name (primary's name pre-seeded), then stable-sort by
`(-membership, name)`. The `or []` guards on the two list arguments are
identity on lists and are absorbed by the `List` argument types. -/
def fuse_splints (primary_splint : Splint) (additional_splints_from_nih : List String)
    (nih_articles : List Article) : FusedPrimary × List AltScore :=
  let seen := [lowerStr (primary_splint.splint_name.getD "")]
  let clin := addClinicalAlts (primary_splint.alternatives.getD []) seen
  let nihL := addNihSplints additional_splints_from_nih clin.1 nih_articles
  let fused_alt_list := (clin.2 ++ nihL).insertionSort altLe
  (⟨primary_splint, fused_alt_list⟩, fused_alt_list)

/-- `fuse_diagnosis_terms`: one clinical term (if the label is non-blank
after trimming) with weight `round(w, 2)`, then one `"nih"` term with
weight `round(1 - w, 2)` per non-blank NIH label, in input order. The
clinical label is returned unchanged. -/
def fuse_diagnosis_terms (suggested_diagnosis : Option String)
    (suggested_diagnosis_terms_from_nih : Option (List String))
    (w_clinical : ℚ) : Option String × List TermRec :=
  let clinical :=
    match suggested_diagnosis with
    | some s => if trimStr s = "" then [] else [⟨trimStr s, "clinical", roundQ2 w_clinical⟩]
    | none => []
  let fromNih := (suggested_diagnosis_terms_from_nih.getD []).filterMap fun t =>
    if trimStr t = "" then none else some ⟨trimStr t, "nih", roundQ2 (1 - w_clinical)⟩
  (suggested_diagnosis, clinical ++ fromNih)

/-- `fuse_recommendations`: non-blank clinical actions at priority 1.0,
plus one synthetic `"nih"` entry at `round(bonus, 2)` when the article list
is truthy, stable-sorted by `(-priority, text)`. -/
def fuse_recommendations (other_recommendations : Option (List String))
    (nih_articles : Option (List Article)) (nih_priority_bonus : ℚ) : List RecRec :=
  let out := (other_recommendations.getD []).filterMap fun r =>
    if trimStr r = "" then none else some ⟨trimStr r, "clinical", (1 : ℚ)⟩
  let out := out ++
    (if (nih_articles.getD []).isEmpty then []
     else [⟨"Consider literature review (PubMed results attached).", "nih",
       roundQ2 nih_priority_bonus⟩])
  out.insertionSort recLe

/-- The `recommended_splint` value of the clinical record: a dict, a bare
value coerced through `str`, or absent. -/
inductive SplintOrStr where
  | dictS (s : Splint)
  | strS (s : String)
deriving DecidableEq

/-- `rec = agent1_result.get("recommended_splint") or {}` followed by the
`isinstance(rec, dict)` stub synthesis. -/
def getPrimary : Option SplintOrStr → Splint
  | none => ⟨none, none, none⟩
  | some (.dictS s) => s
  | some (.strS s) =>
    if s = "" then ⟨none, none, none⟩ else ⟨some s, some "", some []⟩

/-- The clinical (agent 1) record: the keys `aggregate_two_agents` reads. -/
structure Agent1 where
  diagnosis_summary : Option String
  suggested_diagnosis : Option String
  recommended_splint : Option SplintOrStr
  other_recommendations : Option (List String)
  confidence : Option String
deriving DecidableEq

/-- The evidence (agent 2) record: the keys `aggregate_two_agents` reads,
including both legacy aliases for the option and term lists. -/
structure Agent2 where
  nih_articles : Option (List Article)
  additional_splints_from_nih : Option (List String)
  additional_splints : Option (List String)
  suggested_diagnosis_terms_from_nih : Option (List String)
  suggested_diagnosis_terms : Option (List String)
deriving DecidableEq

/-- Python `a or b` on an optional list (`None` and `[]` are falsy). -/
def pyOrList {α : Type} (a : Option (List α)) (b : List α) : List α :=
  match a with
  | some (x :: xs) => x :: xs
  | _ => b

/-- The fused record returned by `aggregate_two_agents`: the agent-1 fields
it copies (with `confidence` and `recommended_splint` overwritten) plus the
keys it writes. -/
structure Fused where
  diagnosis_summary : Option String
  suggested_diagnosis : Option String
  other_recommendations : Option (List String)
  confidence : String
  fused_confidence_numeric : ℤ
  recommended_splint : FusedPrimary
  alternatives_with_scores : List AltScore
  aggregated_diagnosis_terms : List TermRec
  fused_recommendations : List RecRec
  nih_articles : Option (List Article)
  additional_splints_from_nih : List String
  suggested_diagnosis_terms_from_nih : List String
deriving DecidableEq

/-- `aggregate_two_agents`: the top-level orchestration. The term-fusion
step hardcodes clinical weight `0.6` and the recommendation merge uses its
default bonus `0.3`, exactly as in the source. -/
def aggregate_two_agents (agent1_result : Agent1) (agent2_result : Agent2)
    (w_clinical : ℚ) : Fused :=
  let nih_articles := pyOrList agent2_result.nih_articles []
  let additional_splints := pyOrList agent2_result.additional_splints_from_nih
    (pyOrList agent2_result.additional_splints [])
  let nih_terms := pyOrList agent2_result.suggested_diagnosis_terms_from_nih
    (pyOrList agent2_result.suggested_diagnosis_terms [])
  let conf := fuse_confidence (pyOr (agent1_result.confidence.getD "") "medium")
    nih_articles.length nih_terms.length additional_splints.length w_clinical
  let num : ℤ := round (confidence_to_numeric conf * 100)
  let primary := getPrimary agent1_result.recommended_splint
  let fusedSpl := fuse_splints primary additional_splints nih_articles
  let aggTerms := (fuse_diagnosis_terms agent1_result.suggested_diagnosis
    (some nih_terms) 0.6).2
  let other := pyOrList agent1_result.other_recommendations []
  let recs := fuse_recommendations (some other) (some nih_articles) 0.3
  { diagnosis_summary := agent1_result.diagnosis_summary
    suggested_diagnosis := agent1_result.suggested_diagnosis
    other_recommendations := agent1_result.other_recommendations
    confidence := conf
    fused_confidence_numeric := num
    recommended_splint := fusedSpl.1
    alternatives_with_scores := fusedSpl.2
    aggregated_diagnosis_terms := aggTerms
    fused_recommendations := recs
    nih_articles := agent2_result.nih_articles
    additional_splints_from_nih := additional_splints
    suggested_diagnosis_terms_from_nih := nih_terms }

/-- The synthetic literature-review recommendation. -/
def synthRec (bonus : ℚ) : RecRec :=
  ⟨"Consider literature review (PubMed results attached).", "nih", roundQ2 bonus⟩

/-- The term list exactly as the specification words it: one clinical term
with weight `round(w, 2)` when the clinical label is non-blank after
trimming, placed first, then one evidence term with weight
`round(1 - w, 2)` per non-blank evidence label in input order; blank labels
dropped; no deduplication. -/
def specTermList (clinical_label : Option String) (evidence_labels : Option (List String))
    (w : ℚ) : List TermRec :=
  (match clinical_label with
   | some s => if trimStr s ≠ "" then [⟨trimStr s, "clinical", roundQ2 w⟩] else []
   | none => []) ++
  (evidence_labels.getD []).filterMap fun t =>
    if trimStr t ≠ "" then some ⟨trimStr t, "nih", roundQ2 (1 - w)⟩ else none

/-- The linguistic level of a confidence word (`low` < `medium` < `high`),
used to express "never moves to a lower linguistic level". -/
def confLevel : String → ℕ
  | "high" => 2
  | "medium" => 1
  | _ => 0

/-- The §8 end-to-end example: the clinical record with confidence
`"medium"`, primary option `"Volar wrist splint"` with no alternatives, and
other actions `["Order X-ray"]`. -/
def exampleAgent1 : Agent1 :=
  { diagnosis_summary := none
    suggested_diagnosis := none
    recommended_splint := some (.dictS ⟨some "Volar wrist splint", some "", some []⟩)
    other_recommendations := some ["Order X-ray"]
    confidence := some "medium" }

/-- The §8 end-to-end example: the evidence record with three articles whose
titles all contain "thumb spica", candidate options `["thumb spica"]` and
candidate labels `["sprain"]`. -/
def exampleAgent2 : Agent2 :=
  { nih_articles := some [⟨some "Thumb spica splint outcomes"⟩,
      ⟨some "Thumb spica casting for sprains"⟩,
      ⟨some "Efficacy of thumb spica immobilization"⟩]
    additional_splints_from_nih := some ["thumb spica"]
    additional_splints := none
    suggested_diagnosis_terms_from_nih := some ["sprain"]
    suggested_diagnosis_terms := none }

/-! ### Order facts about the Python string comparison -/

theorem charListLt_asymm : ∀ a b, charListLt a b = true → charListLt b a = false := by
  intro a
  induction a with
  | nil => intro b h; cases b <;> simp [charListLt] at h ⊢
  | cons x xs ih =>
    intro b h
    cases b with
    | nil => simp [charListLt] at h
    | cons y ys =>
      by_cases hxy : x.toNat < y.toNat
      · simp [charListLt, hxy, Nat.lt_asymm hxy]
      · by_cases hyx : y.toNat < x.toNat
        · simp [charListLt, hxy, hyx] at h
        · simp only [charListLt, if_neg hxy, if_neg hyx] at h
          simp only [charListLt, if_neg hyx, if_neg hxy]
          exact ih ys h

theorem charListLt_trans :
    ∀ a b c, charListLt a b = true → charListLt b c = true → charListLt a c = true := by
  intro a
  induction a with
  | nil =>
    intro b c hab hbc
    cases b with
    | nil => simp [charListLt] at hab
    | cons y ys =>
      cases c with
      | nil => simp [charListLt] at hbc
      | cons z zs => simp [charListLt]
  | cons x xs ih =>
    intro b c hab hbc
    cases b with
    | nil => simp [charListLt] at hab
    | cons y ys =>
      cases c with
      | nil => simp [charListLt] at hbc
      | cons z zs =>
        by_cases hxy : x.toNat < y.toNat <;> by_cases hyz : y.toNat < z.toNat
        · have : x.toNat < z.toNat := Nat.lt_trans hxy hyz
          simp [charListLt, this]
        · by_cases hzy : z.toNat < y.toNat
          · simp [charListLt, hyz, hzy] at hbc
          · have hyzeq : y.toNat = z.toNat := Nat.le_antisymm (Nat.le_of_not_lt hzy) (Nat.le_of_not_lt hyz)
            have : x.toNat < z.toNat := hyzeq ▸ hxy
            simp [charListLt, this]
        · by_cases hyx : y.toNat < x.toNat
          · simp [charListLt, hxy, hyx] at hab
          · have hxyeq : x.toNat = y.toNat := Nat.le_antisymm (Nat.le_of_not_lt hyx) (Nat.le_of_not_lt hxy)
            have : x.toNat < z.toNat := hxyeq ▸ hyz
            simp [charListLt, this]
        · by_cases hyx : y.toNat < x.toNat
          · simp [charListLt, hxy, hyx] at hab
          · by_cases hzy : z.toNat < y.toNat
            · simp [charListLt, hyz, hzy] at hbc
            · have hxyeq : x.toNat = y.toNat := Nat.le_antisymm (Nat.le_of_not_lt hyx) (Nat.le_of_not_lt hxy)
              have hyzeq : y.toNat = z.toNat := Nat.le_antisymm (Nat.le_of_not_lt hzy) (Nat.le_of_not_lt hyz)
              simp only [charListLt, if_neg hxy, if_neg hyx] at hab
              simp only [charListLt, if_neg hyz, if_neg hzy] at hbc
              have hxz : ¬ x.toNat < z.toNat := by omega
              have hzx : ¬ z.toNat < x.toNat := by omega
              simp only [charListLt, if_neg hxz, if_neg hzx]
              exact ih ys zs hab hbc

theorem charListLt_tricho :
    ∀ a b, charListLt a b = true ∨ charListLt b a = true ∨ a = b := by
  intro a
  induction a with
  | nil => intro b; cases b <;> simp [charListLt]
  | cons x xs ih =>
    intro b
    cases b with
    | nil => simp [charListLt]
    | cons y ys =>
      by_cases hxy : x.toNat < y.toNat
      · left; simp [charListLt, hxy]
      · by_cases hyx : y.toNat < x.toNat
        · right; left; simp [charListLt, hyx]
        · have hxyeq : x = y :=
            Char.eq_of_val_eq (UInt32.ext
              (Nat.le_antisymm (Nat.le_of_not_lt hyx) (Nat.le_of_not_lt hxy)))
          rcases ih ys with h | h | h
          · left; simp [charListLt, hxy, hyx, h]
          · right; left
            simp only [charListLt, if_neg hxy, if_neg hyx]
            exact h
          · right; right; rw [hxyeq, h]

theorem nameLe_total (a b : String) : nameLe a b ∨ nameLe b a := by
  unfold nameLe
  cases hab : charListLt b.data a.data
  · left; rfl
  · right; exact charListLt_asymm _ _ hab

theorem nameLe_trans {a b c : String} (h1 : nameLe a b) (h2 : nameLe b c) : nameLe a c := by
  unfold nameLe at h1 h2 ⊢
  cases hca : charListLt c.data a.data
  · rfl
  · exfalso
    rcases charListLt_tricho a.data b.data with h | h | h
    · have := charListLt_trans _ _ _ hca h
      rw [h2] at this; exact Bool.false_ne_true this
    · rw [h1] at h; exact Bool.false_ne_true h
    · rw [h] at hca; rw [h2] at hca; exact Bool.false_ne_true hca

theorem keyLe_total (m1 : ℚ) (n1 : String) (m2 : ℚ) (n2 : String) :
    keyLe m1 n1 m2 n2 ∨ keyLe m2 n2 m1 n1 := by
  unfold keyLe
  rcases lt_trichotomy m1 m2 with h | h | h
  · right; left; exact h
  · rcases nameLe_total n1 n2 with hn | hn
    · left; right; exact ⟨h, hn⟩
    · right; right; exact ⟨h.symm, hn⟩
  · left; left; exact h

theorem keyLe_trans {m1 m2 m3 : ℚ} {n1 n2 n3 : String}
    (h1 : keyLe m1 n1 m2 n2) (h2 : keyLe m2 n2 m3 n3) : keyLe m1 n1 m3 n3 := by
  unfold keyLe at h1 h2 ⊢
  rcases h1 with h1 | ⟨h1e, h1n⟩
  · rcases h2 with h2 | ⟨h2e, h2n⟩
    · left; exact h2.trans h1
    · left; rw [← h2e]; exact h1
  · rcases h2 with h2 | ⟨h2e, h2n⟩
    · left; rw [h1e]; exact h2
    · right; exact ⟨h1e.trans h2e, nameLe_trans h1n h2n⟩

instance : IsTotal AltScore altLe := ⟨fun _ _ => keyLe_total _ _ _ _⟩

instance : IsTrans AltScore altLe := ⟨fun _ _ _ => keyLe_trans⟩

instance : IsTotal RecRec recLe := ⟨fun _ _ => keyLe_total _ _ _ _⟩

instance : IsTrans RecRec recLe := ⟨fun _ _ _ => keyLe_trans⟩

/-! ### Defuzzification facts -/

theorem defuzzify_confidence_eq (x : ℚ) :
    defuzzify_confidence x =
      if (0.7 : ℚ) ≤ x then "high" else if (0.35 : ℚ) ≤ x then "medium" else "low" := by
  unfold defuzzify_confidence NUMERIC_TO_CONFIDENCE
  by_cases h1 : (0.7 : ℚ) ≤ x <;> by_cases h2 : (0.35 : ℚ) ≤ x <;>
    by_cases h3 : (0 : ℚ) ≤ x <;> simp [List.find?, h1, h2, h3]

theorem defuzzify_confidence_mem (x : ℚ) :
    defuzzify_confidence x = "high" ∨ defuzzify_confidence x = "medium" ∨
      defuzzify_confidence x = "low" := by
  rw [defuzzify_confidence_eq]
  split_ifs <;> simp

theorem fuse_confidence_mem (c : String) (a t s : ℤ) (w : ℚ) :
    fuse_confidence c a t s w = "high" ∨ fuse_confidence c a t s w = "medium" ∨
      fuse_confidence c a t s w = "low" :=
  defuzzify_confidence_mem _

/-! ### Structure of the `fuse_splints` accumulation loops -/

theorem addClinicalAlts_seen_sub :
    ∀ (alts : List AltItem) (seen : List String), seen ⊆ (addClinicalAlts alts seen).1 := by
  intro alts
  induction alts with
  | nil => intro seen; simp [addClinicalAlts]
  | cons alt rest ih =>
    intro seen
    simp only [addClinicalAlts]
    split_ifs with h
    · exact ih seen
    · exact fun a ha => ih _ (List.mem_cons_of_mem _ ha)

theorem addClinicalAlts_mem :
    ∀ (alts : List AltItem) (seen : List String) (e : AltScore),
      e ∈ (addClinicalAlts alts seen).2 →
        lowerStr e.splint_name ∈ (addClinicalAlts alts seen).1 ∧
        lowerStr e.splint_name ∉ seen ∧ e.membership = 1 ∧ e.source = "clinical" := by
  intro alts
  induction alts with
  | nil => intro seen e he; simp [addClinicalAlts] at he
  | cons alt rest ih =>
    intro seen e he
    simp only [addClinicalAlts] at he ⊢
    split_ifs at he ⊢ with h
    · exact ih seen e he
    · rcases List.mem_cons.1 he with rfl | hmem
      · exact ⟨addClinicalAlts_seen_sub _ _ (List.mem_cons_self _ _), h, rfl, rfl⟩
      · obtain ⟨h1, h2, h3, h4⟩ := ih _ e hmem
        exact ⟨h1, fun hc => h2 (List.mem_cons_of_mem _ hc), h3, h4⟩

theorem addClinicalAlts_nodup :
    ∀ (alts : List AltItem) (seen : List String),
      ((addClinicalAlts alts seen).2.map fun e => lowerStr e.splint_name).Nodup := by
  intro alts
  induction alts with
  | nil => intro seen; simp [addClinicalAlts]
  | cons alt rest ih =>
    intro seen
    simp only [addClinicalAlts]
    split_ifs with h
    · exact ih seen
    · refine List.Nodup.cons ?_ (ih _)
      intro hc
      rcases List.mem_map.1 hc with ⟨e, he, heq⟩
      obtain ⟨_, h2, _, _⟩ := addClinicalAlts_mem _ _ e he
      exact h2 (heq ▸ List.mem_cons_self _ _)

theorem addNihSplints_mem :
    ∀ (adds seen : List String) (arts : List Article) (e : AltScore),
      e ∈ addNihSplints adds seen arts →
        lowerStr e.splint_name ∉ seen ∧ e.source = "nih" ∧
        e.membership = roundQ2 (splint_membership_from_nih e.splint_name arts) := by
  intro adds
  induction adds with
  | nil => intro seen arts e he; simp [addNihSplints] at he
  | cons s rest ih =>
    intro seen arts e he
    simp only [addNihSplints] at he
    split_ifs at he with h
    · exact ih seen arts e he
    · rcases List.mem_cons.1 he with rfl | hmem
      · exact ⟨h, rfl, rfl⟩
      · obtain ⟨h1, h2, h3⟩ := ih _ arts e hmem
        exact ⟨fun hc => h1 (List.mem_cons_of_mem _ hc), h2, h3⟩

theorem addNihSplints_nodup :
    ∀ (adds seen : List String) (arts : List Article),
      ((addNihSplints adds seen arts).map fun e => lowerStr e.splint_name).Nodup := by
  intro adds
  induction adds with
  | nil => intro seen arts; simp [addNihSplints]
  | cons s rest ih =>
    intro seen arts
    simp only [addNihSplints]
    split_ifs with h
    · exact ih seen arts
    · refine List.Nodup.cons ?_ (ih _ _)
      intro hc
      rcases List.mem_map.1 hc with ⟨e, he, heq⟩
      obtain ⟨h1, _, _⟩ := addNihSplints_mem _ _ _ e he
      exact h1 (heq ▸ List.mem_cons_self _ _)

/-- The ranked-option list never holds two entries with the same lowercased
name. -/
theorem fuse_splints_lower_nodup (p : Splint) (adds : List String) (arts : List Article) :
    (((fuse_splints p adds arts).2).map fun e => lowerStr e.splint_name).Nodup := by
  unfold fuse_splints
  refine (((List.perm_insertionSort altLe _).map
    fun e => lowerStr e.splint_name).nodup_iff).2 ?_
  rw [List.map_append]
  refine List.Nodup.append (addClinicalAlts_nodup _ _) (addNihSplints_nodup _ _ _) ?_
  intro a ha hb
  rcases List.mem_map.1 ha with ⟨e, he, rfl⟩
  rcases List.mem_map.1 hb with ⟨f, hf, heq⟩
  obtain ⟨he1, _, _, _⟩ := addClinicalAlts_mem _ _ e he
  obtain ⟨hf1, _, _⟩ := addNihSplints_mem _ _ _ f hf
  exact hf1 (heq ▸ he1)

/-- The ranked-option list is sorted by descending membership, then
ascending name. -/
theorem fuse_splints_sorted (p : Splint) (adds : List String) (arts : List Article) :
    ((fuse_splints p adds arts).2).Sorted altLe := by
  unfold fuse_splints
  exact List.sorted_insertionSort altLe _

/-! ### Recommendation merge structure -/

theorem fuse_recommendations_def (other : Option (List String))
    (arts : Option (List Article)) (bonus : ℚ) :
    fuse_recommendations other arts bonus =
      (((other.getD []).filterMap fun r =>
        if trimStr r = "" then none
        else some (⟨trimStr r, "clinical", (1 : ℚ)⟩ : RecRec)) ++
       (if (arts.getD []).isEmpty then [] else [synthRec bonus])).insertionSort recLe := rfl

theorem fuse_recommendations_nih_filter (other : Option (List String))
    (arts : Option (List Article)) (bonus : ℚ) :
    (fuse_recommendations other arts bonus).filter (fun e => e.source == "nih") =
      if (arts.getD []).isEmpty then [] else [synthRec bonus] := by
  rw [fuse_recommendations_def]
  have hperm := (List.perm_insertionSort recLe
    (((other.getD []).filterMap fun r =>
      if trimStr r = "" then none
      else some (⟨trimStr r, "clinical", (1 : ℚ)⟩ : RecRec)) ++
     (if (arts.getD []).isEmpty then [] else [synthRec bonus]))).filter
      (fun e : RecRec => e.source == "nih")
  have hclin : ((other.getD []).filterMap fun r =>
      if trimStr r = "" then none
      else some (⟨trimStr r, "clinical", (1 : ℚ)⟩ : RecRec)).filter
        (fun e : RecRec => e.source == "nih") = [] := by
    rw [List.filter_eq_nil_iff]
    intro e he
    rcases List.mem_filterMap.1 he with ⟨r, _, hr⟩
    split_ifs at hr
    have hre := (Option.some.inj hr).symm
    subst hre
    simp
  rw [List.filter_append, hclin, List.nil_append] at hperm
  split_ifs at hperm ⊢ with hempty
  · simp only [List.filter_nil] at hperm
    exact hperm.eq_nil
  · have hsyn : (List.filter (fun e : RecRec => e.source == "nih") [synthRec bonus]) =
        [synthRec bonus] := by
      simp [synthRec]
    rw [hsyn] at hperm
    exact List.perm_singleton.1 hperm

theorem fuse_recommendations_sorted (other : Option (List String))
    (arts : Option (List Article)) (bonus : ℚ) :
    (fuse_recommendations other arts bonus).Sorted recLe := by
  unfold fuse_recommendations
  exact List.sorted_insertionSort recLe _

/-! ### Range facts -/

theorem membership_triangular_014_bounds {x : ℚ} (_hx : 0 ≤ x) :
    0 ≤ membership_triangular x 0 1 4 ∧ membership_triangular x 0 1 4 ≤ 1 := by
  unfold membership_triangular
  split_ifs with h1 h2 h3 h4
  · norm_num
  · norm_num
  · push_neg at h1
    constructor
    · apply div_nonneg <;> linarith
    · rw [div_le_one (by norm_num)]
      linarith
  · norm_num
  · push_neg at h1
    constructor
    · apply div_nonneg <;> linarith
    · rw [div_le_one (by norm_num)]
      linarith

theorem membership_triangular_036_nonneg (x : ℚ) :
    0 ≤ membership_triangular x 0 3 6 := by
  unfold membership_triangular
  split_ifs with h1 h2 h3 h4
  · norm_num
  · norm_num
  · push_neg at h1
    apply div_nonneg <;> linarith
  · norm_num
  · push_neg at h1
    apply div_nonneg <;> linarith

theorem splint_membership_from_nih_bounds (s : String) (arts : List Article) :
    0 ≤ splint_membership_from_nih s arts ∧ splint_membership_from_nih s arts ≤ 1 := by
  unfold splint_membership_from_nih
  split_ifs
  · norm_num
  · exact membership_triangular_014_bounds (Nat.cast_nonneg _)

theorem roundQ2_bounds {q : ℚ} (h0 : 0 ≤ q) (h1 : q ≤ 1) :
    0 ≤ roundQ2 q ∧ roundQ2 q ≤ 1 := by
  unfold roundQ2
  have hlow : (0 : ℤ) ≤ round (100 * q) := by
    rw [round_eq]
    have h : (0 : ℤ) = ⌊(1 : ℚ) / 2⌋ := by norm_num
    rw [h]
    exact Int.floor_le_floor (by linarith)
  have hhigh : round (100 * q) ≤ 100 := by
    rw [round_eq]
    have h : (100 : ℤ) = ⌊(201 : ℚ) / 2⌋ := by norm_num
    rw [h]
    exact Int.floor_le_floor (by linarith)
  constructor
  · exact div_nonneg (by exact_mod_cast hlow) (by norm_num)
  · rw [div_le_one (by norm_num)]
    exact_mod_cast hhigh

theorem fuse_splints_mem_bounds (p : Splint) (adds : List String) (arts : List Article)
    (e : AltScore) (he : e ∈ (fuse_splints p adds arts).2) :
    0 ≤ e.membership ∧ e.membership ≤ 1 := by
  unfold fuse_splints at he
  rw [List.mem_insertionSort] at he
  rcases List.mem_append.1 he with hc | hn
  · obtain ⟨_, _, h3, _⟩ := addClinicalAlts_mem _ _ e hc
    rw [h3]; norm_num
  · obtain ⟨_, _, h3⟩ := addNihSplints_mem _ _ _ e hn
    rw [h3]
    obtain ⟨b0, b1⟩ := splint_membership_from_nih_bounds e.splint_name arts
    exact roundQ2_bounds b0 b1

theorem fuse_diagnosis_terms_mem_bounds (lbl : Option String)
    (labels : Option (List String)) {w : ℚ} (h0 : 0 ≤ w) (h1 : w ≤ 1)
    (e : TermRec) (he : e ∈ (fuse_diagnosis_terms lbl labels w).2) :
    0 ≤ e.weight ∧ e.weight ≤ 1 := by
  unfold fuse_diagnosis_terms at he
  rcases List.mem_append.1 he with hc | hn
  · rcases lbl with _ | s
    · simp at hc
    · simp only at hc
      split_ifs at hc
      · simp at hc
      · rcases List.mem_singleton.1 hc with rfl
        exact roundQ2_bounds h0 h1
  · rcases List.mem_filterMap.1 hn with ⟨t, _, ht⟩
    split_ifs at ht
    have hte := (Option.some.inj ht).symm
    subst hte
    exact roundQ2_bounds (by linarith) (by linarith)

theorem fuse_recommendations_mem_bounds (other : Option (List String))
    (arts : Option (List Article)) {b : ℚ} (h0 : 0 ≤ b) (h1 : b ≤ 1)
    (e : RecRec) (he : e ∈ fuse_recommendations other arts b) :
    0 ≤ e.priority ∧ e.priority ≤ 1 := by
  unfold fuse_recommendations at he
  rw [List.mem_insertionSort] at he
  rcases List.mem_append.1 he with hc | hn
  · rcases List.mem_filterMap.1 hc with ⟨r, _, hr⟩
    split_ifs at hr
    have hre := (Option.some.inj hr).symm
    subst hre
    norm_num
  · split_ifs at hn
    · simp at hn
    · rcases List.mem_singleton.1 hn with rfl
      exact roundQ2_bounds h0 h1

/-! ### Monotonicity facts for confidence fusion -/

theorem defuzz_level_mono {x y : ℚ} (h : x ≤ y) :
    confLevel (defuzzify_confidence x) ≤ confLevel (defuzzify_confidence y) := by
  rw [defuzzify_confidence_eq, defuzzify_confidence_eq]
  split_ifs <;> simp [confLevel] <;> linarith

theorem clamp_mono {x y : ℚ} (h : x ≤ y) :
    pyMax 0 (pyMin 1 x) ≤ pyMax 0 (pyMin 1 y) := by
  unfold pyMax pyMin
  split_ifs <;> linarith

theorem fuse_confidence_mono_of_nih_le (c : String) {a a2 t t2 s s2 : ℤ} {w : ℚ}
    (hw : w < 1)
    (hstr : nih_evidence_strength a t s ≤ nih_evidence_strength a2 t2 s2) :
    confLevel (fuse_confidence c a t s w) ≤ confLevel (fuse_confidence c a2 t2 s2 w) := by
  unfold fuse_confidence
  apply defuzz_level_mono
  apply clamp_mono
  have hnn : (0 : ℚ) ≤ 1 - w := by linarith
  nlinarith [mul_le_mul_of_nonneg_left hstr hnn]

theorem nih_strength_mono_terms (a t s : ℤ) :
    nih_evidence_strength a t s ≤ nih_evidence_strength a (t + 1) s := by
  unfold nih_evidence_strength pyMin
  push_cast
  split_ifs <;> linarith

theorem nih_strength_mono_splints (a t s : ℤ) :
    nih_evidence_strength a t s ≤ nih_evidence_strength a t (s + 1) := by
  unfold nih_evidence_strength pyMin
  push_cast
  split_ifs <;> linarith

theorem nih_strength_mono_articles_below_peak {a : ℤ} (t s : ℤ)
    (h0 : 0 ≤ a) (h3 : a + 1 ≤ 3) :
    nih_evidence_strength a t s ≤ nih_evidence_strength (a + 1) t s := by
  have h2 : a ≤ 2 := by omega
  have hmu : membership_triangular (a : ℚ) 0 3 6 ≤
      membership_triangular ((a + 1 : ℤ) : ℚ) 0 3 6 := by
    interval_cases a <;> norm_num [membership_triangular]
  unfold nih_evidence_strength
  linarith

/-! ### Negative article counts behave like zero -/

theorem nih_strength_neg_articles (a t s : ℤ) :
    nih_evidence_strength a t s = nih_evidence_strength (max a 0) t s := by
  rcases le_or_lt 0 a with h | h
  · rw [max_eq_left h]
  · rw [max_eq_right h.le]
    unfold nih_evidence_strength
    have h1 : membership_triangular (a : ℚ) 0 3 6 = 0 := by
      unfold membership_triangular
      rw [if_pos]
      left
      exact_mod_cast h.le
    have h2 : membership_triangular ((0 : ℤ) : ℚ) 0 3 6 = 0 := by
      unfold membership_triangular
      rw [if_pos]
      left
      norm_num
    simp only [h1, h2]

/-! ### Remaining helper lemmas -/

theorem string_data_inj : ∀ {a b : String}, a.data = b.data → a = b := by
  intro a b h
  cases a
  cases b
  exact congrArg String.mk h

unseal Rat.mul Rat.inv Rat.add Rat.sub Rat.ofScientific in
theorem round_word_numeric (c : String)
    (hc : c = "high" ∨ c = "medium" ∨ c = "low") :
    round (confidence_to_numeric c * 100) = 20 ∨
    round (confidence_to_numeric c * 100) = 50 ∨
    round (confidence_to_numeric c * 100) = 85 := by
  rcases hc with rfl | rfl | rfl
  · right; right; decide
  · right; left; decide
  · left; decide

/-! ### The claims -/

unseal Rat.mul Rat.inv Rat.add Rat.sub Rat.ofScientific in
/-- C1 (counterexample): on the §8 end-to-end example the UI-scaled numeric
confidence field is 50, not 57 as the claim states: the engine recomputes it
from the defuzzified word `"medium"` (0.5), not from the fused numeric 0.57. -/
theorem c1_ui_numeric_counterexample :
    (aggregate_two_agents exampleAgent1 exampleAgent2 0.7).fused_confidence_numeric = 50 ∧
    (aggregate_two_agents exampleAgent1 exampleAgent2 0.7).fused_confidence_numeric ≠ 57 := by
  decide

unseal Rat.mul Rat.inv Rat.add Rat.sub Rat.ofScientific in
/-- C1 (amended): on the §8 end-to-end example, `aggregate_two_agents` with
clinical weight 0.7 returns confidence word `"medium"`, UI-scaled numeric
confidence 50, a ranked-option list holding exactly one evidence-sourced
entry for the thumb-spica option whose membership is the rounded triangular
count-mention membership (3 title mentions), and the recommendation list
holding "Order X-ray" at priority 1.0 followed by the literature-review
entry at priority 0.3. -/
theorem c1_end_to_end_amended :
    (aggregate_two_agents exampleAgent1 exampleAgent2 0.7).confidence = "medium" ∧
    (aggregate_two_agents exampleAgent1 exampleAgent2 0.7).fused_confidence_numeric = 50 ∧
    (aggregate_two_agents exampleAgent1 exampleAgent2 0.7).alternatives_with_scores =
      [⟨"thumb spica", "nih", roundQ2 (membership_triangular 3 0 1 4)⟩] ∧
    (aggregate_two_agents exampleAgent1 exampleAgent2 0.7).fused_recommendations =
      [⟨"Order X-ray", "clinical", 1⟩, synthRec 0.3] := by
  decide

unseal Rat.mul Rat.inv Rat.add Rat.sub Rat.ofScientific in
/-- C2: for every pair of input records and every clinical weight, the
UI-scaled numeric confidence equals `round(100 × numeric-of-word)` of the
already-defuzzified confidence word, and therefore takes only the values
20, 50 and 85. -/
theorem c2_ui_numeric_three_values (a1 : Agent1) (a2 : Agent2) (w : ℚ) :
    (aggregate_two_agents a1 a2 w).fused_confidence_numeric =
      round (confidence_to_numeric (aggregate_two_agents a1 a2 w).confidence * 100) ∧
    ((aggregate_two_agents a1 a2 w).fused_confidence_numeric = 20 ∨
     (aggregate_two_agents a1 a2 w).fused_confidence_numeric = 50 ∨
     (aggregate_two_agents a1 a2 w).fused_confidence_numeric = 85) :=
  ⟨rfl, round_word_numeric _ (fuse_confidence_mem _ _ _ _ _)⟩

unseal Rat.mul Rat.inv Rat.add Rat.sub Rat.ofScientific in
/-- C3 (counterexample): `fuse_confidence` is not monotonic non-decreasing
in the article count even with clinical weight 0 (< 1): raising the article
count from 4 to 5 drops the fused word from `"medium"` to `"low"`, because
the article triangular membership peaks at 3 and then falls. -/
theorem c3_article_monotonicity_counterexample :
    confLevel (fuse_confidence "low" 5 0 0 0) <
      confLevel (fuse_confidence "low" 4 0 0 0) := by
  decide

/-- C3 (amended): for every confidence word, clinical weight strictly below
1 and non-negative counts, `fuse_confidence` is monotonic non-decreasing in
the term count; in the article count it is monotonic non-decreasing only
while the count stays on the rising side of the triangular membership
(article count + 1 ≤ 3). -/
theorem c3_monotonicity_amended (c : String) (w : ℚ) (a t s : ℤ)
    (hw : w < 1) (ha : 0 ≤ a) (_ht : 0 ≤ t) (_hs : 0 ≤ s) :
    confLevel (fuse_confidence c a t s w) ≤ confLevel (fuse_confidence c a (t + 1) s w) ∧
    (a + 1 ≤ 3 →
      confLevel (fuse_confidence c a t s w) ≤ confLevel (fuse_confidence c (a + 1) t s w)) := by
  constructor
  · exact fuse_confidence_mono_of_nih_le c hw (nih_strength_mono_terms a t s)
  · intro h3
    exact fuse_confidence_mono_of_nih_le c hw (nih_strength_mono_articles_below_peak t s ha h3)

unseal Rat.mul Rat.inv Rat.add Rat.sub Rat.ofScientific in
/-- C3 witness: the amended monotonicity instantiated at word `"medium"`,
weight 1/2, all counts 0. -/
theorem c3_monotonicity_amended_witness :
    (1 / 2 : ℚ) < 1 ∧ (0 : ℤ) ≤ 0 ∧ (0 : ℤ) + 1 ≤ 3 ∧
    confLevel (fuse_confidence "medium" 0 0 0 (1 / 2)) ≤
      confLevel (fuse_confidence "medium" 0 (0 + 1) 0 (1 / 2)) ∧
    confLevel (fuse_confidence "medium" 0 0 0 (1 / 2)) ≤
      confLevel (fuse_confidence "medium" (0 + 1) 0 0 (1 / 2)) :=
  ⟨by norm_num, le_refl 0, by norm_num,
    (c3_monotonicity_amended "medium" (1 / 2) 0 0 0 (by norm_num)
      (le_refl 0) (le_refl 0) (le_refl 0)).1,
    (c3_monotonicity_amended "medium" (1 / 2) 0 0 0 (by norm_num)
      (le_refl 0) (le_refl 0) (le_refl 0)).2 (by norm_num)⟩

/-- C4: if an evidence-candidate name case-insensitively equals the primary
option's name or the name of a clinical alternative, the ranked-option list
holds no two entries with equal lowercased names (in fact this holds for
every input). -/
theorem c4_option_dedup (p : Splint) (adds : List String) (arts : List Article)
    (_hmatch : ∃ c ∈ adds, lowerStr c = lowerStr (p.splint_name.getD "") ∨
      ∃ alt ∈ p.alternatives.getD [], lowerStr c = lowerStr (altName alt)) :
    (((fuse_splints p adds arts).2).map fun e => lowerStr e.splint_name).Nodup :=
  fuse_splints_lower_nodup p adds arts

/-- C4 witness: a candidate differing from the primary name only by case is
not duplicated. -/
theorem c4_option_dedup_witness :
    (∃ c ∈ ["Volar WRIST splint"],
      lowerStr c = lowerStr ((⟨some "Volar wrist splint", none, some []⟩ : Splint).splint_name.getD "") ∨
      ∃ alt ∈ (⟨some "Volar wrist splint", none, some []⟩ : Splint).alternatives.getD [],
        lowerStr c = lowerStr (altName alt)) ∧
    (((fuse_splints ⟨some "Volar wrist splint", none, some []⟩
      ["Volar WRIST splint"] []).2).map fun e => lowerStr e.splint_name).Nodup :=
  ⟨by decide, c4_option_dedup _ _ _ (by decide)⟩

/-- C5: in the ranked-option list, for any two entries, distinct memberships
put the higher membership first, and equal memberships put the
lexicographically smaller name first. -/
theorem c5_ranked_option_order (p : Splint) (adds : List String) (arts : List Article)
    (i j : Fin ((fuse_splints p adds arts).2).length) (hij : i < j) :
    ((((fuse_splints p adds arts).2).get i).membership ≠
        (((fuse_splints p adds arts).2).get j).membership →
      (((fuse_splints p adds arts).2).get j).membership <
        (((fuse_splints p adds arts).2).get i).membership) ∧
    ((((fuse_splints p adds arts).2).get i).membership =
        (((fuse_splints p adds arts).2).get j).membership →
      charListLt (((fuse_splints p adds arts).2).get i).splint_name.data
        (((fuse_splints p adds arts).2).get j).splint_name.data = true) := by
  have hs : ((fuse_splints p adds arts).2).Pairwise altLe := fuse_splints_sorted p adds arts
  have hrel := List.pairwise_iff_get.1 hs i j hij
  unfold altLe keyLe at hrel
  constructor
  · intro hne
    rcases hrel with h | ⟨heq, _⟩
    · exact h
    · exact absurd heq hne
  · intro heq
    rcases hrel with h | ⟨_, hn⟩
    · exact absurd heq (ne_of_gt h)
    · have hpw : ((fuse_splints p adds arts).2).Pairwise
          (fun a b => lowerStr a.splint_name ≠ lowerStr b.splint_name) :=
        List.pairwise_map.1 (fuse_splints_lower_nodup p adds arts)
      have hfne := List.pairwise_iff_get.1 hpw i j hij
      have hne : (((fuse_splints p adds arts).2).get i).splint_name ≠
          (((fuse_splints p adds arts).2).get j).splint_name := by
        intro hcon
        exact hfne (by rw [hcon])
      rcases charListLt_tricho
        (((fuse_splints p adds arts).2).get i).splint_name.data
        (((fuse_splints p adds arts).2).get j).splint_name.data with h | h | h
      · exact h
      · unfold nameLe at hn
        rw [hn] at h
        exact absurd h (by simp)
      · exact absurd (string_data_inj h) hne

unseal Rat.mul Rat.inv Rat.add Rat.sub Rat.ofScientific in
/-- C5 witness: on a concrete input whose three entries all have membership
1, the entries appear in ascending name order. -/
theorem c5_ranked_option_order_witness :
    ((⟨0, by decide⟩ : Fin ((fuse_splints ⟨some "P", none,
        some [.strA "A", .strA "B"]⟩ ["c"] [⟨some "c"⟩]).2).length) <
      (⟨1, by decide⟩ : Fin ((fuse_splints ⟨some "P", none,
        some [.strA "A", .strA "B"]⟩ ["c"] [⟨some "c"⟩]).2).length)) ∧
    charListLt
      (((fuse_splints ⟨some "P", none, some [.strA "A", .strA "B"]⟩
        ["c"] [⟨some "c"⟩]).2.get ⟨0, by decide⟩).splint_name.data)
      (((fuse_splints ⟨some "P", none, some [.strA "A", .strA "B"]⟩
        ["c"] [⟨some "c"⟩]).2.get ⟨1, by decide⟩).splint_name.data) = true :=
  ⟨by decide,
    (c5_ranked_option_order ⟨some "P", none, some [.strA "A", .strA "B"]⟩
      ["c"] [⟨some "c"⟩] ⟨0, by decide⟩ ⟨1, by decide⟩ (by decide)).2 (by decide)⟩

/-- C6: the merged recommendation list holds exactly one evidence-sourced
entry, which is the synthetic literature-review entry with priority
`round(bonus, 2)`, exactly when the article list is non-empty (and zero
such entries when it is empty), and the whole list is sorted by descending
priority, then ascending text. -/
theorem c6_recommendation_merge (other : Option (List String))
    (arts : Option (List Article)) (bonus : ℚ) :
    (fuse_recommendations other arts bonus).filter (fun e => e.source == "nih") =
      (if (arts.getD []).isEmpty then [] else [synthRec bonus]) ∧
    (fuse_recommendations other arts bonus).Sorted recLe :=
  ⟨fuse_recommendations_nih_filter other arts bonus,
   fuse_recommendations_sorted other arts bonus⟩

unseal Rat.mul Rat.inv Rat.add Rat.sub Rat.ofScientific in
/-- C7 (counterexample): a negative term count is not treated as 0: with
clinical confidence `"high"` and weight 0.7, term count -18 drives the
fused word to `"low"`, while the all-zero call returns `"medium"`. -/
theorem c7_negative_terms_counterexample :
    fuse_confidence "high" 0 (-18) 0 (7 / 10) = "low" ∧
    fuse_confidence "high" 0 0 0 (7 / 10) = "medium" := by
  decide

/-- C7 (amended): negative article counts are treated as 0 (the triangular
article membership vanishes at and below 0), but negative term/option
counts are not: they enter the linear ramp directly and can lower the
result. -/
theorem c7_negative_articles_amended (c : String) (w : ℚ) (a t s : ℤ) :
    fuse_confidence c a t s w = fuse_confidence c (max a 0) t s w := by
  unfold fuse_confidence
  rw [nih_strength_neg_articles]

unseal Rat.mul Rat.inv Rat.add Rat.sub Rat.ofScientific in
/-- C8: with clinical weight 1.0 and zero evidence counts, each confidence
word round-trips unchanged through numericization, fusion and
defuzzification. -/
theorem c8_confidence_roundtrip :
    fuse_confidence "high" 0 0 0 1 = "high" ∧
    fuse_confidence "medium" 0 0 0 1 = "medium" ∧
    fuse_confidence "low" 0 0 0 1 = "low" := by
  decide

/-- C9: term aggregation returns the clinical label unchanged as its first
component, and the term list described by the specification: one clinical
term with weight `round(w, 2)` exactly when the label is non-blank after
trimming (placed first), then one `"nih"` term with weight
`round(1 - w, 2)` per non-blank evidence label in input order, blanks
dropped, no deduplication. -/
theorem c9_term_aggregation (lbl : Option String) (labels : Option (List String)) (w : ℚ) :
    fuse_diagnosis_terms lbl labels w = (lbl, specTermList lbl labels w) := by
  cases lbl <;> simp only [fuse_diagnosis_terms, specTermList, ne_eq, ite_not]

unseal Rat.mul Rat.inv Rat.add Rat.sub Rat.ofScientific in
/-- C10 (counterexample): values are not clamped to `[0, 1]` for every
input: term aggregation with clinical weight 5 emits a term of weight 5. -/
theorem c10_weight_counterexample :
    ((fuse_diagnosis_terms (some "a") none 5).2.map TermRec.weight) = [5] ∧
    ¬ ((5 : ℚ) ≤ 1) := by
  decide

/-- C10 (amended): every membership, weight and priority produced by the
fusion operations lies in `[0, 1]` provided the tunable weight/bonus
parameters lie in `[0, 1]`; for the top-level `aggregate_two_agents` this
holds unconditionally (its sub-weights are the constants 0.6 and 0.3, and
the clinical weight only influences the confidence word). -/
theorem c10_unit_interval_amended :
    (∀ (p : Splint) (adds : List String) (arts : List Article) (e : AltScore),
      e ∈ (fuse_splints p adds arts).2 → 0 ≤ e.membership ∧ e.membership ≤ 1) ∧
    (∀ (lbl : Option String) (labels : Option (List String)) (w : ℚ) (e : TermRec),
      0 ≤ w → w ≤ 1 → e ∈ (fuse_diagnosis_terms lbl labels w).2 →
        0 ≤ e.weight ∧ e.weight ≤ 1) ∧
    (∀ (other : Option (List String)) (arts : Option (List Article)) (b : ℚ) (e : RecRec),
      0 ≤ b → b ≤ 1 → e ∈ fuse_recommendations other arts b →
        0 ≤ e.priority ∧ e.priority ≤ 1) ∧
    (∀ (a1 : Agent1) (a2 : Agent2) (w : ℚ),
      (∀ e ∈ (aggregate_two_agents a1 a2 w).alternatives_with_scores,
        0 ≤ e.membership ∧ e.membership ≤ 1) ∧
      (∀ e ∈ (aggregate_two_agents a1 a2 w).aggregated_diagnosis_terms,
        0 ≤ e.weight ∧ e.weight ≤ 1) ∧
      (∀ e ∈ (aggregate_two_agents a1 a2 w).fused_recommendations,
        0 ≤ e.priority ∧ e.priority ≤ 1)) := by
  refine ⟨fuse_splints_mem_bounds,
    fun lbl labels w e h0 h1 he => fuse_diagnosis_terms_mem_bounds lbl labels h0 h1 e he,
    fun other arts b e h0 h1 he => fuse_recommendations_mem_bounds other arts h0 h1 e he,
    fun a1 a2 w => ⟨?_, ?_, ?_⟩⟩
  · intro e he
    exact fuse_splints_mem_bounds (getPrimary a1.recommended_splint)
      (pyOrList a2.additional_splints_from_nih (pyOrList a2.additional_splints []))
      (pyOrList a2.nih_articles []) e he
  · intro e he
    exact @fuse_diagnosis_terms_mem_bounds a1.suggested_diagnosis
      (some (pyOrList a2.suggested_diagnosis_terms_from_nih
        (pyOrList a2.suggested_diagnosis_terms []))) 0.6
      (by norm_num) (by norm_num) e he
  · intro e he
    exact @fuse_recommendations_mem_bounds (some (pyOrList a1.other_recommendations []))
      (some (pyOrList a2.nih_articles [])) 0.3 (by norm_num) (by norm_num) e he

unseal Rat.mul Rat.inv Rat.add Rat.sub Rat.ofScientific in
/-- C10 witness: the term-aggregation component instantiated at weight 0.6
on a singleton clinical label. -/
theorem c10_unit_interval_amended_witness :
    (0 : ℚ) ≤ 0.6 ∧ (0.6 : ℚ) ≤ 1 ∧
    (⟨"sprain", "clinical", roundQ2 0.6⟩ : TermRec) ∈
      (fuse_diagnosis_terms (some "sprain") none 0.6).2 ∧
    (0 ≤ (⟨"sprain", "clinical", roundQ2 0.6⟩ : TermRec).weight ∧
      (⟨"sprain", "clinical", roundQ2 0.6⟩ : TermRec).weight ≤ 1) :=
  ⟨by norm_num, by norm_num, by decide,
    c10_unit_interval_amended.2.1 (some "sprain") none 0.6
      ⟨"sprain", "clinical", roundQ2 0.6⟩ (by norm_num) (by norm_num) (by decide)⟩
